import Mathlib

/-!
# Verification of the httpx resilience-pipeline specification

The repository is a catalogue of example call sites for the `httpx` HTTP
client library; the library's pipeline stages themselves (retry engine,
circuit breaker, response cache, tiered cache, singleflight deduplication,
rate limiter, middleware chain) are not part of the repository's sources.
Following the specification, those stages are modelled here as executable
Lean definitions (each marked `Modelled from the spec:`), and the
demonstration runner (`main` / `allDemos`), which is in the sources, is
embedded directly from the code.

Conventions: time is a natural number of abstract ticks (rationals for the
rate limiter, whose waits are fractional); an HTTP exchange is a pure value;
the "Transport Stage" is a function supplying the downstream outcome of each
invocation, and every operation reports how many downstream invocations it
performed.
-/

/-- An HTTP response as the pipeline sees it: status code and body bytes
(modelled as a string). -/
structure HResponse where
  status : Nat
  body : String
deriving DecidableEq

/-- HTTP methods used by the examples. -/
inductive HMethod where
  | get
  | head
  | put
  | delete
  | options
  | post
  | patch
deriving DecidableEq

/-- Modelled from the spec (§4.2): an idempotent method is
GET/HEAD/PUT/DELETE/OPTIONS, not POST/PATCH. -/
def isIdempotent : HMethod → Bool
  | .get => true
  | .head => true
  | .put => true
  | .delete => true
  | .options => true
  | .post => false
  | .patch => false

/-- Outcome of one Transport Stage invocation: a response, or a
network-transport error with no response. -/
inductive Outcome where
  | ok (resp : HResponse)
  | err (msg : String)
deriving DecidableEq

/-! ## Circuit breaker (modelled from the spec, §4.3) -/

/-- Per-key circuit state: `closed` (initial), `opened` with the timestamp of
the transition into Open, or `halfOpen`. -/
inductive CBState where
  | closed
  | opened (openedAt : Nat)
  | halfOpen
deriving DecidableEq

/-- Circuit breaker configuration: consecutive-failure threshold to trip,
consecutive Half-Open success threshold to close, and the open timeout. -/
structure CBConfig where
  failureThreshold : Nat
  successThreshold : Nat
  openTimeout : Nat
deriving DecidableEq

/-- One key's breaker bookkeeping: state, consecutive-failure counter and
consecutive-success counter (used while Half-Open). -/
structure CBEntry where
  state : CBState
  failures : Nat
  successes : Nat
deriving DecidableEq

/-- The initial bookkeeping for a fresh key: Closed with zeroed counters. -/
def CBEntry.start : CBEntry := ⟨CBState.closed, 0, 0⟩

/-- Modelled from the spec: `Allow` on one key's entry. Closed and Half-Open
admit the call; Open fails fast with a "circuit open" error unless
`openTimeout` has elapsed since the transition, in which case the entry
lazily moves to Half-Open and the call itself is admitted. Returns the
error-or-nil result together with the updated entry. -/
def cbAllow (cfg : CBConfig) (e : CBEntry) (now : Nat) : Option String × CBEntry :=
  match e.state with
  | .closed => (none, e)
  | .opened t =>
    if t + cfg.openTimeout ≤ now then
      (none, ⟨CBState.halfOpen, 0, 0⟩)
    else
      (some "circuit open", e)
  | .halfOpen => (none, e)

/-- Modelled from the spec: `RecordFailure` on one key's entry. While Closed
it increments the consecutive-failure counter and trips to Open (recording
`now`) at `failureThreshold`; while Half-Open any failure reopens the
circuit; while Open it is a no-op. -/
def cbRecordFailure (cfg : CBConfig) (e : CBEntry) (now : Nat) : CBEntry :=
  match e.state with
  | .closed =>
    if cfg.failureThreshold ≤ e.failures + 1 then ⟨CBState.opened now, 0, 0⟩
    else ⟨CBState.closed, e.failures + 1, e.successes⟩
  | .opened _ => e
  | .halfOpen => ⟨CBState.opened now, 0, 0⟩

/-- Modelled from the spec: `RecordSuccess` on one key's entry. While Closed
it resets the consecutive-failure counter; while Half-Open it increments the
consecutive-success counter and closes the circuit (resetting both counters)
at `successThreshold`; while Open it is a no-op. -/
def cbRecordSuccess (cfg : CBConfig) (e : CBEntry) : CBEntry :=
  match e.state with
  | .closed => ⟨CBState.closed, 0, e.successes⟩
  | .opened t => ⟨CBState.opened t, e.failures, e.successes⟩
  | .halfOpen =>
    if cfg.successThreshold ≤ e.successes + 1 then CBEntry.start
    else ⟨CBState.halfOpen, e.failures, e.successes + 1⟩

/-- A breaker instance: per-target-key state, every key starting at
`CBEntry.start`. -/
abbrev CircuitBreaker := String → CBEntry

/-- A fresh breaker: every key Closed with zeroed counters. -/
def newCircuitBreaker : CircuitBreaker := fun _ => CBEntry.start

/-- Keyed `Allow`: consult and update only the given key's entry. -/
def CircuitBreaker.allow (cb : CircuitBreaker) (cfg : CBConfig) (key : String)
    (now : Nat) : Option String × CircuitBreaker :=
  let r := cbAllow cfg (cb key) now
  (r.1, fun k => if k = key then r.2 else cb k)

/-- Keyed `RecordFailure`. -/
def CircuitBreaker.recordFailure (cb : CircuitBreaker) (cfg : CBConfig)
    (key : String) (now : Nat) : CircuitBreaker :=
  fun k => if k = key then cbRecordFailure cfg (cb key) now else cb k

/-- Keyed `RecordSuccess`. -/
def CircuitBreaker.recordSuccess (cb : CircuitBreaker) (cfg : CBConfig)
    (key : String) : CircuitBreaker :=
  fun k => if k = key then cbRecordSuccess cfg (cb key) else cb k

/-- A streak of `RecordFailure(key)` calls, one per listed timestamp. -/
def recordFailures (cfg : CBConfig) (cb : CircuitBreaker) (key : String) :
    List Nat → CircuitBreaker
  | [] => cb
  | t :: ts => recordFailures cfg (cb.recordFailure cfg key t) key ts

/-- A streak of `n` consecutive `RecordSuccess(key)` calls. -/
def recordSuccesses (cfg : CBConfig) (cb : CircuitBreaker) (key : String) :
    Nat → CircuitBreaker
  | 0 => cb
  | n + 1 => recordSuccesses cfg (cb.recordSuccess cfg key) key n

/-- Entry-level failure streak (the keyed streak restricted to one key). -/
def entryFailures (cfg : CBConfig) : CBEntry → List Nat → CBEntry
  | e, [] => e
  | e, t :: ts => entryFailures cfg (cbRecordFailure cfg e t) ts

/-- Entry-level success streak. -/
def entrySuccesses (cfg : CBConfig) : CBEntry → Nat → CBEntry
  | e, 0 => e
  | e, n + 1 => entrySuccesses cfg (cbRecordSuccess cfg e) n

/-! ## Retry engine (modelled from the spec, §4.2) -/

/-- A retry policy: attempt bound, backoff strategy (0-based attempt index to
wait duration), retry conditions (OR-composed predicates over the outcome),
and the idempotent-methods-only flag. The per-attempt observer is omitted:
it does not affect invocation counts or waits. -/
structure RetryPolicy where
  maxAttempts : Nat
  backoff : Nat → Nat
  conditions : List (Outcome → Bool)
  retryOnlyIdempotent : Bool

/-- A retry condition list matches when any condition matches. -/
def retryMatches (p : RetryPolicy) (o : Outcome) : Bool :=
  p.conditions.any (fun c => c o)

/-- Modelled from the spec: the retry loop. `transport i` is the outcome of
the `i`-th downstream invocation; `idem` records whether the request method
is idempotent. Returns the final outcome, the number of Transport Stage
invocations, and the total duration slept between attempts. The fuel
argument (instantiated with `maxAttempts`) bounds the recursion and is never
exhausted before the attempt bound. -/
def retryGo (p : RetryPolicy) (idem : Bool) (transport : Nat → Outcome) :
    Nat → Nat → Outcome × Nat × Nat
  | attempt, 0 => (transport attempt, attempt + 1, 0)
  | attempt, fuel + 1 =>
    let o := transport attempt
    if retryMatches p o = true ∧ attempt + 1 < p.maxAttempts ∧
        (p.retryOnlyIdempotent = true → idem = true) then
      let r := retryGo p idem transport (attempt + 1) fuel
      (r.1, r.2.1, p.backoff attempt + r.2.2)
    else
      (o, attempt + 1, 0)

/-- `Execute(request, policy)`: run the retry loop from attempt 0. -/
def retryExecute (p : RetryPolicy) (m : HMethod) (transport : Nat → Outcome) :
    Outcome × Nat × Nat :=
  retryGo p (isIdempotent m) transport 0 p.maxAttempts

/-! ## Response cache (modelled from the spec, §4.5) -/

/-- A stored cache entry: response snapshot and absolute expiry timestamp. -/
structure CacheEntry where
  resp : HResponse
  expiresAt : Nat
deriving DecidableEq

/-- `MemoryCache`: key-to-entry store carrying its configured TTL. -/
structure MemoryCache where
  ttl : Nat
  entries : List (String × CacheEntry)
deriving DecidableEq

/-- A fresh, empty memory cache with the given TTL. -/
def MemoryCache.new (ttl : Nat) : MemoryCache := ⟨ttl, []⟩

/-- `Get(key)` with lazy TTL check: a hit only when the entry exists and is
unexpired at `now`. -/
def MemoryCache.get (c : MemoryCache) (k : String) (now : Nat) : Option HResponse :=
  match c.entries.lookup k with
  | some e => if now < e.expiresAt then some e.resp else none
  | none => none

/-- `Set(key, response)`: store with expiry `now + ttl`, replacing any
previous entry for the key. -/
def MemoryCache.set (c : MemoryCache) (k : String) (r : HResponse) (now : Nat) :
    MemoryCache :=
  ⟨c.ttl, (k, ⟨r, now + c.ttl⟩) :: c.entries.filter (fun p => p.1 != k)⟩

/-- `Delete(key)`: drop the key's entry. -/
def MemoryCache.delete (c : MemoryCache) (k : String) : MemoryCache :=
  ⟨c.ttl, c.entries.filter (fun p => p.1 != k)⟩

/-- A cache backend as the caching middleware consumes it: `get` may update
the state (the tiered cache back-fills on read). -/
structure CacheOps (σ : Type) where
  get : σ → String → Nat → Option HResponse × σ
  set : σ → String → HResponse → Nat → σ
  del : σ → String → σ

/-- The memory cache as a backend. -/
def memOps : CacheOps MemoryCache :=
  ⟨fun c k now => (c.get k now, c), MemoryCache.set, MemoryCache.delete⟩

/-- `NoopCache`: `Get` always misses, `Set` stores nothing, `Delete` is a
no-op. -/
def noopOps : CacheOps Unit :=
  ⟨fun s _ _ => (none, s), fun s _ _ _ => s, fun s _ => s⟩

/-- A 2xx (successful, cacheable) status. -/
def is2xx (r : HResponse) : Bool := 200 ≤ r.status && r.status ≤ 299

/-- Modelled from the spec: the caching middleware's GET path. The key is the
resolved URL. On an unexpired hit, return the stored response with zero
downstream invocations; on miss or expiry invoke downstream once and store
the response with the configured TTL when it is 2xx. Returns the response,
the new cache state, and the number of Transport Stage invocations. -/
def cachedGet (ops : CacheOps σ) (st : σ) (url : String) (now : Nat)
    (transport : HResponse) : HResponse × σ × Nat :=
  match ops.get st url now with
  | (some r, st') => (r, st', 0)
  | (none, st') =>
    if is2xx transport then (transport, ops.set st' url transport now, 1)
    else (transport, st', 1)

/-- Modelled from the spec: non-GET requests never read or write the cache;
every POST goes straight downstream. -/
def cachedPost (ops : CacheOps σ) (st : σ) (url : String)
    (transport : HResponse) : HResponse × σ × Nat :=
  (transport, st, 1)

/-- Run a sequence of GET requests `(url, time, downstream response)` through
the caching middleware over the no-op cache, counting Transport Stage
invocations. -/
def noopRun : List (String × Nat × HResponse) → Nat → Nat
  | [], n => n
  | (u, t, tr) :: rest, n => noopRun rest (n + (cachedGet noopOps () u t tr).2.2)

/-! ## Tiered cache (modelled from the spec, §4.5 tiered variant) -/

/-- `TieredCache`: a fast L1 tier backed by a longer-lived L2 tier. -/
structure TieredCache where
  l1 : MemoryCache
  l2 : MemoryCache
deriving DecidableEq

/-- Modelled from the spec: tiered read. Check L1; on hit return. On L1 miss
check L2; on hit back-fill L1 with the same value — the back-filled entry's
TTL governed by L1's own configuration, not copied from L2 — and return. -/
def TieredCache.get (c : TieredCache) (k : String) (now : Nat) :
    Option HResponse × TieredCache :=
  match c.l1.get k now with
  | some r => (some r, c)
  | none =>
    match c.l2.get k now with
    | some r => (some r, ⟨c.l1.set k r now, c.l2⟩)
    | none => (none, c)

/-- Tiered write: propagate to both tiers. -/
def TieredCache.set (c : TieredCache) (k : String) (r : HResponse) (now : Nat) :
    TieredCache :=
  ⟨c.l1.set k r now, c.l2.set k r now⟩

/-- Tiered delete: propagate to both tiers. -/
def TieredCache.delete (c : TieredCache) (k : String) : TieredCache :=
  ⟨c.l1.delete k, c.l2.delete k⟩

/-- The tiered cache as a backend for the caching middleware. -/
def tieredOps : CacheOps TieredCache :=
  ⟨TieredCache.get, TieredCache.set, TieredCache.delete⟩

/-! ## Deduplication / singleflight (modelled from the spec, §4.6)

Concurrency is abstracted as an event trace: `arrive` is a caller's request
entering the stage, `complete` is the live in-flight downstream invocation
finishing. Callers whose executions overlap one in-flight window are exactly
the callers that arrive between the window's creating arrival and its
`complete` event. -/

/-- A singleflight trace event. -/
inductive SFEvent where
  | arrive (m : HMethod) (caller : Nat)
  | complete
deriving DecidableEq

/-- Singleflight stage state: the live deduplication group (its downstream
invocation's index and its waiting callers), the number of Transport Stage
invocations started so far, and the results delivered to callers (caller,
body), each caller receiving its own pair. -/
structure SFState where
  inflight : Option (Nat × List Nat)
  invocations : Nat
  delivered : List (Nat × String)
deriving DecidableEq

/-- The stage before any request. -/
def sfInit : SFState := ⟨none, 0, []⟩

/-- Modelled from the spec: one trace step. `responses i` is the body
produced by the `i`-th downstream invocation. A GET arrival joins the live
group, or creates one (starting a single downstream invocation). A non-GET
arrival always executes independently with its own downstream invocation.
`complete` delivers the group's single result to every waiter and destroys
the group. -/
def sfStep (responses : Nat → String) (s : SFState) : SFEvent → SFState
  | .arrive .get c =>
    match s.inflight with
    | some (i, ws) => ⟨some (i, ws ++ [c]), s.invocations, s.delivered⟩
    | none => ⟨some (s.invocations, [c]), s.invocations + 1, s.delivered⟩
  | .arrive _ c =>
    ⟨s.inflight, s.invocations + 1, s.delivered ++ [(c, responses s.invocations)]⟩
  | .complete =>
    match s.inflight with
    | some (i, ws) =>
      ⟨none, s.invocations, s.delivered ++ ws.map (fun c => (c, responses i))⟩
    | none => s

/-- Run a singleflight trace from the initial state. -/
def sfRun (responses : Nat → String) (evs : List SFEvent) : SFState :=
  evs.foldl (sfStep responses) sfInit

/-! ## Middleware chain (modelled from the spec, §4.1) -/

/-- A Transport Stage that also threads an observation log, so that the
order in which stages are entered and exited is observable. -/
abbrev LogTransport := String → List String → HResponse × List String

/-- A middleware stage wraps a Transport Stage. -/
abbrev Middleware := LogTransport → LogTransport

/-- Modelled from the spec: the Pipeline Composer. The stage list is applied
in registration order, outermost first: the composed transport is
`m1 (m2 (... (mk t)))`. -/
def chainMW (ms : List Middleware) (t : LogTransport) : LogTransport :=
  ms.foldr (fun m acc => m acc) t

/-- A named order-observing stage (as built by the middleware-chain example):
log `name ++ "->in"` on the way in, invoke the next stage, log
`name ++ "->out"` on the way out. -/
def orderMW (name : String) : Middleware := fun next req log =>
  match next req (log ++ [name ++ "->in"]) with
  | (resp, log') => (resp, log' ++ [name ++ "->out"])

/-- A terminal Transport Stage returning a fixed response and logging "T". -/
def terminalT (r : HResponse) : LogTransport := fun _ log => (r, log ++ ["T"])

/-! ## Rate limiter (modelled from the spec, §4.4) -/

/-- A token bucket: refill rate (tokens/second), capacity, current tokens,
and the time of the last accounting. -/
structure TokenBucket where
  rate : ℚ
  cap : ℚ
  tokens : ℚ
  lastTime : ℚ
deriving DecidableEq

/-- Modelled from the spec: the global limiter, resolving the zero-burst
open question the way the reference examples show — a zero-burst limiter has
one token available immediately, then is governed by the rate. The bucket
starts full at creation time 0. -/
def NewGlobalRateLimiter (r : ℚ) (burst : Nat) : TokenBucket :=
  let c : ℚ := max (burst : ℚ) 1
  ⟨r, c, c, 0⟩

/-- Accrue tokens continuously at the configured rate, up to capacity. -/
def TokenBucket.refill (b : TokenBucket) (now : ℚ) : TokenBucket :=
  ⟨b.rate, b.cap, min b.cap (b.tokens + b.rate * (now - b.lastTime)), now⟩

/-- Modelled from the spec: `Wait` called at time `now`. If a token is
available it is consumed and the call is admitted immediately; otherwise the
caller blocks until one token has accrued at the configured rate. Returns
the admission time and the bucket afterwards. -/
def TokenBucket.wait (b : TokenBucket) (now : ℚ) : ℚ × TokenBucket :=
  let b' := b.refill now
  if 1 ≤ b'.tokens then
    (now, ⟨b'.rate, b'.cap, b'.tokens - 1, b'.lastTime⟩)
  else
    let t := now + (1 - b'.tokens) / b.rate
    (t, ⟨b'.rate, b'.cap, 0, t⟩)

/-! ## The command-line runner (embedded from the source `main` package) -/

/-- Breaker configuration used by the circuit-breaker witness. -/
def cbCfgW : CBConfig := ⟨2, 1, 10⟩

/-- Retry policy witnessing the amended retry-count claim. -/
def retryPolW : RetryPolicy := ⟨3, fun i => i + 1, [fun _ => true], false⟩

/-- Retry policy for the retry-count counterexample: idempotent-only with an
always-matching condition. -/
def retryPolCex : RetryPolicy := ⟨2, fun _ => 0, [fun _ => true], true⟩

/-- Retry policy used by the idempotent-only witness. -/
def retryPolIdemW : RetryPolicy := ⟨3, fun _ => 0, [fun _ => true], true⟩

/-- A constant 500-status transport for retry scenarios. -/
def tr500 : Nat → Outcome := fun _ => Outcome.ok ⟨500, "boom"⟩

/-- Tiered cache used by the tiered witness: the key deleted from L1
(TTL 5) but still live in L2 (TTL 100), both tiers populated at time 0. -/
def tieredW : TieredCache :=
  ⟨((MemoryCache.new 5).set "k" ⟨200, "b"⟩ 0).delete "k",
   (MemoryCache.new 100).set "k" ⟨200, "b"⟩ 0⟩

/-- Downstream bodies used by the singleflight witness. -/
def sfBodiesW : Nat → String := fun i => if i = 0 then "alpha" else "beta"

/-! # Theorems -/

/-! ## Circuit breaker lemmas -/

theorem recordFailures_apply (cfg : CBConfig) (key : String) :
    ∀ (ts : List Nat) (cb : CircuitBreaker),
      (recordFailures cfg cb key ts) key = entryFailures cfg (cb key) ts := by
  intro ts
  induction ts with
  | nil => intro cb; rfl
  | cons t ts ih =>
    intro cb
    show (recordFailures cfg (cb.recordFailure cfg key t) key ts) key = _
    rw [ih]
    simp [CircuitBreaker.recordFailure, entryFailures]

theorem recordSuccesses_apply (cfg : CBConfig) (key : String) :
    ∀ (n : Nat) (cb : CircuitBreaker),
      (recordSuccesses cfg cb key n) key = entrySuccesses cfg (cb key) n := by
  intro n
  induction n with
  | zero => intro cb; rfl
  | succ n ih =>
    intro cb
    show (recordSuccesses cfg (cb.recordSuccess cfg key) key n) key = _
    rw [ih]
    simp [CircuitBreaker.recordSuccess, entrySuccesses]

theorem entryFailures_trip (cfg : CBConfig) :
    ∀ (ts : List Nat) (c s tN : Nat), c + ts.length + 1 = cfg.failureThreshold →
      entryFailures cfg ⟨CBState.closed, c, s⟩ (ts ++ [tN]) =
        ⟨CBState.opened tN, 0, 0⟩ := by
  intro ts
  induction ts with
  | nil =>
    intro c s tN h
    show entryFailures cfg (cbRecordFailure cfg ⟨CBState.closed, c, s⟩ tN) [] = _
    simp only [cbRecordFailure]
    rw [if_pos (by simp at h; omega)]
    rfl
  | cons t ts ih =>
    intro c s tN h
    show entryFailures cfg (cbRecordFailure cfg ⟨CBState.closed, c, s⟩ t) (ts ++ [tN]) = _
    simp only [cbRecordFailure]
    rw [if_neg (by simp at h; omega)]
    exact ih (c + 1) s tN (by simp at h ⊢; omega)

theorem entryFailures_stay_closed (cfg : CBConfig) :
    ∀ (ts : List Nat) (c s : Nat), c + ts.length < cfg.failureThreshold →
      entryFailures cfg ⟨CBState.closed, c, s⟩ ts =
        ⟨CBState.closed, c + ts.length, s⟩ := by
  intro ts
  induction ts with
  | nil => intro c s _; rfl
  | cons t ts ih =>
    intro c s h
    show entryFailures cfg (cbRecordFailure cfg ⟨CBState.closed, c, s⟩ t) ts = _
    simp only [cbRecordFailure]
    rw [if_neg (by simp at h; omega)]
    rw [ih (c + 1) s (by simp at h ⊢; omega)]
    simp; omega

theorem entrySuccesses_close (cfg : CBConfig) :
    ∀ (n c f : Nat), c + n + 1 = cfg.successThreshold →
      entrySuccesses cfg ⟨CBState.halfOpen, f, c⟩ (n + 1) = CBEntry.start := by
  intro n
  induction n with
  | zero =>
    intro c f h
    show entrySuccesses cfg (cbRecordSuccess cfg ⟨CBState.halfOpen, f, c⟩) 0 = _
    simp only [cbRecordSuccess]
    rw [if_pos (by omega)]
    rfl
  | succ n ih =>
    intro c f h
    show entrySuccesses cfg (cbRecordSuccess cfg ⟨CBState.halfOpen, f, c⟩) (n + 1) = _
    simp only [cbRecordSuccess]
    rw [if_neg (by omega)]
    exact ih (c + 1) f (by omega)

/-- C1: with thresholds F and S and open timeout T, a key starting Closed
moves to Open (stamped with the time of the F-th failure) after F
consecutive `RecordFailure` calls; every `Allow` before T has elapsed
returns the "circuit open" error and leaves the breaker unchanged (so no
Transport Stage invocation is admitted in that window); the first `Allow`
at or after T returns nil and moves the key to Half-Open; after S
consecutive `RecordSuccess` calls the key is back to the initial Closed
state, every subsequent `Allow` returns nil without changing the breaker,
and it keeps returning nil as long as fewer than F new consecutive failures
have been recorded. -/
theorem circuit_breaker_lifecycle (cfg : CBConfig) (key : String)
    (ts : List Nat) (tN now : Nat) (cb1 cb2 cb3 : CircuitBreaker)
    (hF : ts.length + 1 = cfg.failureThreshold)
    (hS : 1 ≤ cfg.successThreshold)
    (hcb1 : cb1 = recordFailures cfg newCircuitBreaker key (ts ++ [tN]))
    (hnow : tN + cfg.openTimeout ≤ now)
    (hcb2 : cb2 = (cb1.allow cfg key now).2)
    (hcb3 : cb3 = recordSuccesses cfg cb2 key cfg.successThreshold) :
    (cb1 key = ⟨CBState.opened tN, 0, 0⟩) ∧
    (∀ t, t < tN + cfg.openTimeout →
        (cb1.allow cfg key t).1 = some "circuit open" ∧ (cb1.allow cfg key t).2 = cb1) ∧
    ((cb1.allow cfg key now).1 = none ∧ (cb2 key).state = CBState.halfOpen) ∧
    (cb3 key = CBEntry.start) ∧
    (∀ t, (cb3.allow cfg key t).1 = none ∧ (cb3.allow cfg key t).2 = cb3) ∧
    (∀ us : List Nat, us.length < cfg.failureThreshold →
        ((recordFailures cfg cb3 key us) key).state = CBState.closed ∧
        ∀ t, ((recordFailures cfg cb3 key us).allow cfg key t).1 = none) := by
  have h1 : cb1 key = ⟨CBState.opened tN, 0, 0⟩ := by
    rw [hcb1, recordFailures_apply]
    exact entryFailures_trip cfg ts 0 0 tN (by simpa using hF)
  have h2 : ∀ t, t < tN + cfg.openTimeout →
      (cb1.allow cfg key t).1 = some "circuit open" ∧ (cb1.allow cfg key t).2 = cb1 := by
    intro t ht
    constructor
    · simp [CircuitBreaker.allow, h1, cbAllow, Nat.not_le.mpr ht]
    · funext k
      by_cases hk : k = key
      · subst hk
        simp [CircuitBreaker.allow, h1, cbAllow, Nat.not_le.mpr ht]
      · simp [CircuitBreaker.allow, hk]
  have h3a : (cb1.allow cfg key now).1 = none := by
    simp [CircuitBreaker.allow, h1, cbAllow, hnow]
  have h2key : cb2 key = ⟨CBState.halfOpen, 0, 0⟩ := by
    rw [hcb2]
    simp [CircuitBreaker.allow, h1, cbAllow, hnow]
  have h4 : cb3 key = CBEntry.start := by
    rw [hcb3, recordSuccesses_apply, h2key]
    obtain ⟨S, hSeq⟩ : ∃ S, cfg.successThreshold = S + 1 :=
      ⟨cfg.successThreshold - 1, by omega⟩
    rw [hSeq]
    exact entrySuccesses_close cfg S 0 0 (by omega)
  have h5 : ∀ t, (cb3.allow cfg key t).1 = none ∧ (cb3.allow cfg key t).2 = cb3 := by
    intro t
    constructor
    · simp [CircuitBreaker.allow, h4, cbAllow, CBEntry.start]
    · funext k
      by_cases hk : k = key
      · subst hk
        simp [CircuitBreaker.allow, h4, cbAllow, CBEntry.start]
      · simp [CircuitBreaker.allow, hk]
  refine ⟨h1, h2, ⟨h3a, by rw [h2key]⟩, h4, h5, ?_⟩
  intro us hus
  have hclosed : (recordFailures cfg cb3 key us) key =
      ⟨CBState.closed, us.length, 0⟩ := by
    rw [recordFailures_apply, h4]
    have := entryFailures_stay_closed cfg us 0 0 (by omega)
    simpa [CBEntry.start] using this
  refine ⟨by rw [hclosed], ?_⟩
  intro t
  simp [CircuitBreaker.allow, hclosed, cbAllow]

/-- Witness for C1 at a concrete configuration (F = 2, S = 1, T = 10), key
"k", failures at times 0 and 1: `Allow` at time 5 errors, at time 11 is
admitted, and after one `RecordSuccess` the key admits again. -/
theorem circuit_breaker_lifecycle_witness :
    ((recordFailures cbCfgW newCircuitBreaker "k" ([0] ++ [1])).allow cbCfgW "k" 5).1 =
      some "circuit open" ∧
    ((recordFailures cbCfgW newCircuitBreaker "k" ([0] ++ [1])).allow cbCfgW "k" 11).1 = none ∧
    ((recordSuccesses cbCfgW
        ((recordFailures cbCfgW newCircuitBreaker "k" ([0] ++ [1])).allow cbCfgW "k" 11).2
        "k" cbCfgW.successThreshold).allow cbCfgW "k" 12).1 = none := by
  have h := circuit_breaker_lifecycle cbCfgW "k" [0] 1 11
    (recordFailures cbCfgW newCircuitBreaker "k" ([0] ++ [1]))
    ((recordFailures cbCfgW newCircuitBreaker "k" ([0] ++ [1])).allow cbCfgW "k" 11).2
    (recordSuccesses cbCfgW
      ((recordFailures cbCfgW newCircuitBreaker "k" ([0] ++ [1])).allow cbCfgW "k" 11).2
      "k" cbCfgW.successThreshold)
    (by decide) (by decide) rfl (by decide) rfl rfl
  exact ⟨(h.2.1 5 (by decide)).1, h.2.2.1.1, (h.2.2.2.2.1 12).1⟩

/-! ## Retry engine lemmas -/

theorem retryGo_always (p : RetryPolicy) (idem : Bool) (t : Nat → Outcome)
    (hmatch : ∀ o, retryMatches p o = true)
    (hidem : p.retryOnlyIdempotent = true → idem = true) :
    ∀ (fuel attempt : Nat), attempt < p.maxAttempts →
      p.maxAttempts ≤ attempt + 1 + fuel →
      retryGo p idem t attempt fuel =
        (t (p.maxAttempts - 1), p.maxAttempts,
          ∑ i ∈ Finset.Ico attempt (p.maxAttempts - 1), p.backoff i) := by
  intro fuel
  induction fuel with
  | zero =>
    intro attempt h1 h2
    have ha : attempt = p.maxAttempts - 1 := by omega
    show (t attempt, attempt + 1, 0) = _
    rw [ha]
    have : p.maxAttempts - 1 + 1 = p.maxAttempts := by omega
    rw [this, Finset.Ico_self, Finset.sum_empty]
  | succ fuel ih =>
    intro attempt h1 h2
    rw [retryGo]
    by_cases hlt : attempt + 1 < p.maxAttempts
    · rw [if_pos ⟨hmatch _, hlt, hidem⟩]
      rw [ih (attempt + 1) hlt (by omega)]
      have hs : ∑ i ∈ Finset.Ico attempt (p.maxAttempts - 1), p.backoff i =
          p.backoff attempt + ∑ i ∈ Finset.Ico (attempt + 1) (p.maxAttempts - 1), p.backoff i :=
        Finset.sum_eq_sum_Ico_succ_bot (by omega) p.backoff
      rw [hs]
    · rw [if_neg (by intro h; exact hlt h.2.1)]
      have ha : attempt = p.maxAttempts - 1 := by omega
      rw [ha]
      have : p.maxAttempts - 1 + 1 = p.maxAttempts := by omega
      rw [this, Finset.Ico_self, Finset.sum_empty]

/-- C2 as stated fails: the quantification over "every retry policy" includes
policies with the idempotent-only flag set, and for a POST request such a
policy performs a single Transport Stage invocation regardless of
`MaxAttempts`. Concretely, `retryPolCex` has `MaxAttempts = 2` and a
condition matching every outcome, yet `Execute` on a POST invokes the
transport once, not twice. -/
theorem retry_attempts_cex :
    retryPolCex.maxAttempts = 2 ∧
    ((fun _ => true) ∈ retryPolCex.conditions ∧
      ∀ o : Outcome, (fun _ => true : Outcome → Bool) o = true) ∧
    (retryExecute retryPolCex HMethod.post tr500).2.1 = 1 ∧
    (retryExecute retryPolCex HMethod.post tr500).2.1 ≠ retryPolCex.maxAttempts := by
  refine ⟨rfl, ⟨List.mem_singleton.mpr rfl, fun _ => rfl⟩, by decide, by decide⟩

/-- C2 (amended): for every retry policy with `MaxAttempts = N ≥ 1`, a
backoff strategy, and a condition list in which some condition matches every
outcome — provided that when `RetryOnlyIdempotent` is set the request method
is idempotent — `Execute` invokes the Transport Stage exactly N times and
the total duration slept between attempts is `Backoff(0) + ... +
Backoff(N-2)` (zero when N = 1). -/
theorem retry_attempts_and_sleep (p : RetryPolicy) (m : HMethod)
    (t : Nat → Outcome) (N : Nat) (hN : p.maxAttempts = N) (hN1 : 1 ≤ N)
    (hc : ∃ c ∈ p.conditions, ∀ o, c o = true)
    (hid : p.retryOnlyIdempotent = true → isIdempotent m = true) :
    (retryExecute p m t).2.1 = N ∧
    (retryExecute p m t).2.2 = ∑ i ∈ Finset.range (N - 1), p.backoff i := by
  have hmatch : ∀ o, retryMatches p o = true := by
    intro o
    obtain ⟨c, hcmem, hcall⟩ := hc
    exact List.any_eq_true.mpr ⟨c, hcmem, hcall o⟩
  have h := retryGo_always p (isIdempotent m) t hmatch hid p.maxAttempts 0
    (by omega) (by omega)
  rw [retryExecute, h]
  subst hN
  exact ⟨rfl, by rw [Finset.range_eq_Ico]⟩

/-- Witness for the amended C2: `MaxAttempts = 3`, backoff `i + 1`, an
always-true condition and a GET request give exactly 3 invocations and a
total sleep of `Backoff(0) + Backoff(1)`. -/
theorem retry_attempts_and_sleep_witness :
    (retryExecute retryPolW HMethod.get tr500).2.1 = 3 ∧
    (retryExecute retryPolW HMethod.get tr500).2.2 =
      ∑ i ∈ Finset.range 2, retryPolW.backoff i := by
  have h := retry_attempts_and_sleep retryPolW HMethod.get tr500 3 rfl (by omega)
    ⟨fun _ => true, List.mem_singleton.mpr rfl, fun _ => rfl⟩ (by decide)
  exact h

/-- C7: with `RetryOnlyIdempotent = true`, an always-matching condition and
`MaxAttempts = N ≥ 1`, a POST request causes exactly one Transport Stage
invocation regardless of N, while a GET request under the same policy causes
exactly N invocations. -/
theorem retry_only_idempotent (p : RetryPolicy) (t tg : Nat → Outcome)
    (hflag : p.retryOnlyIdempotent = true)
    (hc : ∃ c ∈ p.conditions, ∀ o, c o = true)
    (hN : 1 ≤ p.maxAttempts) :
    (retryExecute p HMethod.post t).2.1 = 1 ∧
    (retryExecute p HMethod.get tg).2.1 = p.maxAttempts := by
  constructor
  · obtain ⟨f, hf⟩ : ∃ f, p.maxAttempts = f + 1 := ⟨p.maxAttempts - 1, by omega⟩
    have hstep : retryExecute p HMethod.post t = retryGo p false t 0 (f + 1) := by
      rw [retryExecute, hf]
      rfl
    rw [hstep, retryGo]
    rw [if_neg (by intro h; simpa using h.2.2 hflag)]
  · have hmatch : ∀ o, retryMatches p o = true := by
      intro o
      obtain ⟨c, hcmem, hcall⟩ := hc
      exact List.any_eq_true.mpr ⟨c, hcmem, hcall o⟩
    have h := retryGo_always p (isIdempotent HMethod.get) tg hmatch
      (fun _ => rfl) p.maxAttempts 0 (by omega) (by omega)
    rw [retryExecute, h]

/-- Witness for C7: the idempotent-only policy with `MaxAttempts = 3`
invokes once for POST and three times for GET. -/
theorem retry_only_idempotent_witness :
    (retryExecute retryPolIdemW HMethod.post tr500).2.1 = 1 ∧
    (retryExecute retryPolIdemW HMethod.get tr500).2.1 = retryPolIdemW.maxAttempts :=
  retry_only_idempotent retryPolIdemW tr500 tr500 rfl
    ⟨fun _ => true, List.mem_singleton.mpr rfl, fun _ => rfl⟩ (by decide)

/-! ## Memory cache lemmas -/

theorem MemoryCache.get_set_hit (c : MemoryCache) (k : String) (r : HResponse)
    (now t : Nat) (ht : t < now + c.ttl) :
    (c.set k r now).get k t = some r := by
  simp [MemoryCache.set, MemoryCache.get, List.lookup, ht]

theorem MemoryCache.get_set_expired (c : MemoryCache) (k : String)
    (r : HResponse) (now t : Nat) (ht : now + c.ttl ≤ t) :
    (c.set k r now).get k t = none := by
  simp [MemoryCache.set, MemoryCache.get, List.lookup, Nat.not_lt.mpr ht]

theorem lookup_filter_self (k : String) :
    ∀ l : List (String × CacheEntry),
      (l.filter (fun p => p.1 != k)).lookup k = none := by
  intro l
  induction l with
  | nil => rfl
  | cons p l ih =>
    obtain ⟨a, b⟩ := p
    rw [List.filter_cons]
    by_cases h : a = k
    · rw [if_neg (by simp [h])]
      exact ih
    · rw [if_pos (by simp [h])]
      have hk : (k == a) = false := by simp [Ne.symm h]
      simp only [List.lookup, hk]
      exact ih

theorem MemoryCache.get_delete (c : MemoryCache) (k : String) (t : Nat) :
    (c.delete k).get k t = none := by
  simp [MemoryCache.delete, MemoryCache.get, lookup_filter_self]

/-- C3: through the caching middleware over a memory cache, a GET that
misses invokes the Transport Stage once and stores the 2xx response; a
second GET to the same resolved URL within the entry's TTL is served from
the cache with zero invocations and leaves the cache unchanged; a GET at or
after the entry's expiry invokes the transport again; a GET after
`Delete(key)` invokes the transport again; and a POST neither reads nor
writes any cache — it always performs exactly one invocation and returns
the cache state untouched. -/
theorem cache_middleware_behavior (c0 : MemoryCache) (url : String)
    (t1 t2 t3 : Nat) (r tr2 tr3 tr4 : HResponse)
    (h2xx : is2xx r = true)
    (hmiss : c0.get url t1 = none)
    (ht2 : t2 < t1 + c0.ttl)
    (ht3 : t1 + c0.ttl ≤ t3) :
    (cachedGet memOps c0 url t1 r = (r, c0.set url r t1, 1)) ∧
    (cachedGet memOps (c0.set url r t1) url t2 tr2 = (r, c0.set url r t1, 0)) ∧
    ((cachedGet memOps (c0.set url r t1) url t3 tr3).2.2 = 1) ∧
    ((cachedGet memOps ((c0.set url r t1).delete url) url t2 tr4).2.2 = 1) ∧
    (∀ (σ : Type) (ops : CacheOps σ) (st : σ) (u : String) (trp : HResponse),
      cachedPost ops st u trp = (trp, st, 1)) := by
  refine ⟨?_, ?_, ?_, ?_, fun _ _ _ _ _ => rfl⟩
  · simp [cachedGet, memOps, hmiss, h2xx]
  · simp [cachedGet, memOps, MemoryCache.get_set_hit c0 url r t1 t2 ht2]
  · have hexp : (c0.set url r t1).get url t3 = none := by
      have := MemoryCache.get_set_expired c0 url r t1 t3 ht3
      exact this
    simp only [cachedGet, memOps, hexp]
    split <;> rfl
  · simp only [cachedGet, memOps, MemoryCache.get_delete]
    split <;> rfl

/-- Witness for C3 at TTL 10, url "u", times 0 / 5 / 10: invocation counts
1 (miss), 0 (hit within TTL), 1 (after expiry), 1 (after delete). -/
theorem cache_middleware_behavior_witness :
    (cachedGet memOps (MemoryCache.new 10) "u" 0 ⟨200, "b"⟩).2.2 = 1 ∧
    (cachedGet memOps ((MemoryCache.new 10).set "u" ⟨200, "b"⟩ 0) "u" 5 ⟨200, "x"⟩).2.2 = 0 ∧
    (cachedGet memOps ((MemoryCache.new 10).set "u" ⟨200, "b"⟩ 0) "u" 10 ⟨200, "x"⟩).2.2 = 1 ∧
    (cachedGet memOps (((MemoryCache.new 10).set "u" ⟨200, "b"⟩ 0).delete "u") "u" 5 ⟨200, "x"⟩).2.2 = 1 := by
  have h := cache_middleware_behavior (MemoryCache.new 10) "u" 0 5 10
    ⟨200, "b"⟩ ⟨200, "x"⟩ ⟨200, "x"⟩ ⟨200, "x"⟩ (by decide) (by decide)
    (by decide) (by decide)
  exact ⟨by rw [h.1], by rw [h.2.1], h.2.2.1, h.2.2.2.1⟩

/-- C9: with `NoopCache` installed, no request is ever served from cache —
every GET in any sequence of requests invokes the Transport Stage, so the
total number of invocations equals the number of requests. -/
theorem noop_cache_identity (reqs : List (String × Nat × HResponse)) :
    noopRun reqs 0 = reqs.length := by
  suffices h : ∀ (rs : List (String × Nat × HResponse)) (n : Nat),
      noopRun rs n = n + rs.length by
    simpa using h reqs 0
  intro rs
  induction rs with
  | nil => intro n; simp [noopRun]
  | cons q rs ih =>
    intro n
    obtain ⟨u, t, tr⟩ := q
    have hone : (cachedGet noopOps () u t tr).2.2 = 1 := by
      simp only [cachedGet, noopOps]
      split <;> rfl
    show noopRun rs (n + (cachedGet noopOps () u t tr).2.2) = _
    rw [hone, ih]
    simp [List.length_cons]
    omega

/-- C6: a read through the caching middleware over a tiered cache, for a key
missing (or expired) in L1 but unexpired in L2, performs zero Transport
Stage invocations, returns the value stored in L2, and back-fills L1 with
that same value, the back-filled entry expiring per L1's own TTL
configuration rather than L2's. -/
theorem tiered_backfill (c : TieredCache) (k : String) (now : Nat)
    (v tr : HResponse)
    (h1 : c.l1.get k now = none)
    (h2 : c.l2.get k now = some v) :
    cachedGet tieredOps c k now tr = (v, ⟨c.l1.set k v now, c.l2⟩, 0) ∧
    ((c.l1.set k v now).entries.lookup k = some ⟨v, now + c.l1.ttl⟩) := by
  constructor
  · simp [cachedGet, tieredOps, TieredCache.get, h1, h2]
  · simp [MemoryCache.set, List.lookup]

/-- Witness for C6: key "k" deleted from L1 (TTL 5) but live in L2
(TTL 100); the read at time 3 returns the L2 value with zero invocations and
back-fills L1 with expiry 3 + 5. -/
theorem tiered_backfill_witness :
    cachedGet tieredOps tieredW "k" 3 ⟨200, "z"⟩ =
      (⟨200, "b"⟩, ⟨tieredW.l1.set "k" ⟨200, "b"⟩ 3, tieredW.l2⟩, 0) ∧
    (tieredW.l1.set "k" ⟨200, "b"⟩ 3).entries.lookup "k" =
      some ⟨⟨200, "b"⟩, 3 + tieredW.l1.ttl⟩ :=
  tiered_backfill tieredW "k" 3 ⟨200, "b"⟩ ⟨200, "z"⟩ (by decide) (by decide)

/-! ## Singleflight lemmas -/

theorem sf_join (responses : Nat → String) :
    ∀ (cs : List Nat) (i inv : Nat) (ws : List Nat) (dl : List (Nat × String)),
      (cs.map (SFEvent.arrive HMethod.get)).foldl (sfStep responses)
          ⟨some (i, ws), inv, dl⟩ = ⟨some (i, ws ++ cs), inv, dl⟩ := by
  intro cs
  induction cs with
  | nil => intro i inv ws dl; simp
  | cons c cs ih =>
    intro i inv ws dl
    simp only [List.map_cons, List.foldl_cons]
    rw [show sfStep responses ⟨some (i, ws), inv, dl⟩ (SFEvent.arrive HMethod.get c) =
        ⟨some (i, ws ++ [c]), inv, dl⟩ from rfl]
    rw [ih]
    simp

theorem sf_post_count (responses : Nat → String) :
    ∀ (cs : List Nat) (s : SFState),
      ((cs.map (SFEvent.arrive HMethod.post)).foldl (sfStep responses) s).invocations =
        s.invocations + cs.length := by
  intro cs
  induction cs with
  | nil => intro s; simp
  | cons c cs ih =>
    intro s
    simp only [List.map_cons, List.foldl_cons]
    rw [show sfStep responses s (SFEvent.arrive HMethod.post c) =
        ⟨s.inflight, s.invocations + 1, s.delivered ++ [(c, responses s.invocations)]⟩ from rfl]
    rw [ih]
    simp [List.length_cons]
    omega

/-- C4: N ≥ 2 GET callers whose executions overlap one in-flight window
(they all arrive before the window's single downstream invocation
completes) cause exactly one Transport Stage invocation, and every caller
is delivered its own result pair carrying the byte-identical body of that
one invocation; N concurrent POST callers cause exactly N Transport Stage
invocations (non-GET requests are never deduplicated). -/
theorem singleflight_dedup (responses : Nat → String) (callers : List Nat)
    (hN : 2 ≤ callers.length) :
    (sfRun responses (callers.map (SFEvent.arrive HMethod.get) ++
        [SFEvent.complete])).invocations = 1 ∧
    (sfRun responses (callers.map (SFEvent.arrive HMethod.get) ++
        [SFEvent.complete])).delivered = callers.map (fun c => (c, responses 0)) ∧
    (∀ p ∈ (sfRun responses (callers.map (SFEvent.arrive HMethod.get) ++
        [SFEvent.complete])).delivered, p.2 = responses 0) ∧
    (sfRun responses (callers.map (SFEvent.arrive HMethod.post))).invocations =
      callers.length := by
  obtain ⟨c, rest, rfl⟩ : ∃ c rest, callers = c :: rest := by
    cases callers with
    | nil => simp at hN
    | cons c rest => exact ⟨c, rest, rfl⟩
  have hrun : sfRun responses ((c :: rest).map (SFEvent.arrive HMethod.get) ++
      [SFEvent.complete]) = ⟨none, 1, (c :: rest).map (fun x => (x, responses 0))⟩ := by
    rw [sfRun, List.foldl_append]
    have h1 : ((c :: rest).map (SFEvent.arrive HMethod.get)).foldl (sfStep responses)
        sfInit = ⟨some (0, c :: rest), 1, []⟩ := by
      simp only [List.map_cons, List.foldl_cons]
      rw [show sfStep responses sfInit (SFEvent.arrive HMethod.get c) =
          ⟨some (0, [c]), 1, []⟩ from rfl]
      rw [sf_join]
      rfl
    rw [h1]
    rfl
  refine ⟨by rw [hrun], by rw [hrun], ?_, ?_⟩
  · rw [hrun]
    intro p hp
    simp only [List.mem_map] at hp
    obtain ⟨x, _, rfl⟩ := hp
    rfl
  · show (sfRun responses ((c :: rest).map (SFEvent.arrive HMethod.post))).invocations =
      (c :: rest).length
    rw [sfRun, sf_post_count responses (c :: rest) sfInit]
    simp [sfInit]

/-- Witness for C4: callers 7 and 8, downstream bodies "alpha" then "beta":
one invocation and both callers delivered "alpha" for GET; two invocations
for POST. -/
theorem singleflight_dedup_witness :
    (sfRun sfBodiesW ([7, 8].map (SFEvent.arrive HMethod.get) ++
        [SFEvent.complete])).invocations = 1 ∧
    (sfRun sfBodiesW ([7, 8].map (SFEvent.arrive HMethod.get) ++
        [SFEvent.complete])).delivered = [7, 8].map (fun c => (c, sfBodiesW 0)) ∧
    (sfRun sfBodiesW ([7, 8].map (SFEvent.arrive HMethod.post))).invocations =
      ([7, 8] : List Nat).length := by
  have h := singleflight_dedup sfBodiesW [7, 8] (by decide)
  exact ⟨h.1, h.2.1, h.2.2.2⟩

/-! ## Middleware chain -/

theorem chainMW_order_aux (r : HResponse) (req : String) :
    ∀ (names : List String) (log : List String),
      chainMW (names.map orderMW) (terminalT r) req log =
        (r, log ++ names.map (fun n => n ++ "->in") ++ ["T"] ++
          names.reverse.map (fun n => n ++ "->out")) := by
  intro names
  induction names with
  | nil =>
    intro log
    simp [chainMW, terminalT]
  | cons n ns ih =>
    intro log
    show orderMW n (chainMW (ns.map orderMW) (terminalT r)) req log = _
    simp only [orderMW]
    rw [ih (log ++ [n ++ "->in"])]
    simp [List.reverse_cons, List.append_assoc]

/-- C5: the Pipeline Composer applies middleware stages in registration
order, outermost first: composing order-observing stages named
`n1, ..., nk` around a terminal Transport Stage produces, on one request,
the observation sequence `n1-in, ..., nk-in, T, nk-out, ..., n1-out` —
the stages are entered in registration order and exited in exact reverse
order, with the terminal stage invoked in between. -/
theorem middleware_chain_order (names : List String) (r : HResponse)
    (req : String) :
    chainMW (names.map orderMW) (terminalT r) req [] =
      (r, names.map (fun n => n ++ "->in") ++ ["T"] ++
        names.reverse.map (fun n => n ++ "->out")) := by
  simpa using chainMW_order_aux r req names []

/-! ## Rate limiter -/

/-- C8: a global limiter configured with positive rate r and burst 0 has one
token available at creation, so the very first `Wait` call is admitted
immediately at time 0, and a second `Wait` issued immediately afterwards is
admitted only at time 1/r — it blocks until one token accrues at rate r,
rather than the first call also waiting a full interval. -/
theorem zero_burst_first_token (r : ℚ) (hr : 0 < r) :
    (NewGlobalRateLimiter r 0).tokens = 1 ∧
    ((NewGlobalRateLimiter r 0).wait 0).1 = 0 ∧
    (((NewGlobalRateLimiter r 0).wait 0).2.wait 0).1 = 1 / r := by
  have hb : NewGlobalRateLimiter r 0 = ⟨r, 1, 1, 0⟩ := by
    simp [NewGlobalRateLimiter]
  have hw1 : (NewGlobalRateLimiter r 0).wait 0 = (0, ⟨r, 1, 0, 0⟩) := by
    rw [hb]
    norm_num [TokenBucket.wait, TokenBucket.refill]
  have hw2 : ((⟨r, 1, 0, 0⟩ : TokenBucket).wait 0).1 = 1 / r := by
    norm_num [TokenBucket.wait, TokenBucket.refill]
  exact ⟨by rw [hb], by rw [hw1], by rw [hw1]; exact hw2⟩

/-- Witness for C8 at rate 2: first `Wait` admitted at time 0, second
admitted at time 1/2. -/
theorem zero_burst_first_token_witness :
    (NewGlobalRateLimiter 2 0).tokens = 1 ∧
    ((NewGlobalRateLimiter 2 0).wait 0).1 = 0 ∧
    (((NewGlobalRateLimiter 2 0).wait 0).2.wait 0).1 = 1 / 2 :=
  zero_burst_first_token 2 (by norm_num)

/-! ## Command-line runner -/

